import Mathlib

set_option maxHeartbeats 1000000

/-!
Shallow embedding of the Coup + ISMCTS engine in `game.py`.

Conventions used throughout:
* `random.shuffle` is modelled by an explicit shuffle function
  `σ : List Card → List Card`; a concrete execution of the Python code
  corresponds to instantiating `σ` with (some) permutation.
* Python dictionaries `revealedCards`, `coins`, `knockedOut`,
  `playerHands` are modelled as total functions.  The Python dicts raise
  `KeyError` on keys outside their domain; all reads performed on the
  traces and statements below stay inside the Python domains.
* Python's `for card in lst: ... lst.remove(card)` pattern (iterating a
  list while removing from it) is reproduced exactly by `pyRemoveLoop`,
  index-by-index, including the element-skipping behaviour.
* The crucial aliasing in the source is reproduced faithfully:
  `DealFromDeck` uses `self.revealedCards` itself as its counting dict
  (and therefore mutates it), `CloneAndRandomize` uses the *clone's*
  `revealedCards` as scratch, and `CloneAndSelfDeterminize` uses the
  *receiver's* `revealedCards` as scratch.  `CloneAndSelfDeterminize`
  hence returns a pair: (the clone, the mutated receiver).
* `DoMove` returns `Option CoupState`; `none` models a Python runtime
  exception (`ValueError` from `list.remove`/`int(...)`, `KeyError` from
  indexing the static tables with a non-action move, or the
  string-iteration misbehaviour of `list(move)` in the ambassador
  branch).  No branch of the source checks legality of the move.
-/

inductive Card where
  | ambassador
  | assassin
  | captain
  | contessa
  | duke
deriving DecidableEq, Repr

/-- The move alphabet of `game.py`.  The source uses strings
(`"Income"`, `"Duke"`, `"Allow"`, `"2"`, ...) and tuples of strings (the
ambassador hands); `role c` covers the five card-name strings, which
serve simultaneously as action claims, block claims and reveal choices,
exactly as in the source. -/
inductive Move where
  | income
  | foreignAid
  | coup
  | role (c : Card)
  | allow
  | challenge
  | resolveChallenge
  | target (i : Nat)
  | newHand (cs : List Card)
deriving DecidableEq, Repr

/-- The fields of `CoupState.__init__` / `Clone`.  `numberOfPlayers` is
`n + 1` as in the source (player `0` is the environment player). -/
structure CoupState where
  numberOfPlayers : Nat
  playerToMove : Nat
  playerHands : Nat → List Card
  coins : Nat → Int
  revealedCards : Card → Nat
  knockedOut : Nat → Bool
  currentAction : Option Move
  currentActionPlayer : Option Nat
  currentActionTarget : Option Nat
  currentBlock : Option Move
  currentBlockPlayer : Option Nat
  challenger : Option Nat
  challengingPhase : Bool
  revealingInfluence : Bool
  choosingTarget : Bool
  ambassadorCards : List Card

/-- `GetCardDeck`: `["Ambassador","Assassin","Captain","Contessa","Duke"] * 3`,
in exactly the source's order (the order matters for the
remove-while-iterating loop). -/
def GetCardDeck : List Card :=
  [.ambassador, .assassin, .captain, .contessa, .duke,
   .ambassador, .assassin, .captain, .contessa, .duke,
   .ambassador, .assassin, .captain, .contessa, .duke]

/-- `range(1, self.numberOfPlayers)`: the ids of the real players. -/
def realPlayers (s : CoupState) : List Nat :=
  (List.range (s.numberOfPlayers - 1)).map (· + 1)

/-- Python's
`for card in lst:` / `if cnt[card] > 0: lst.remove(card); cnt[card] -= 1`
loop, reproduced index-by-index.  `lst.remove` removes the *first*
occurrence; removal shifts later elements down so the iterator skips the
element that slides into the removed slot — exactly as in CPython. -/
def pyRemoveLoopF : Nat → (Card → Nat) → List Card → Nat → (Card → Nat) × List Card
  | 0, cnt, lst, _ => (cnt, lst)
  | fuel + 1, cnt, lst, i =>
    if h : i < lst.length then
      let card := lst.get ⟨i, h⟩
      if cnt card > 0 then
        pyRemoveLoopF fuel (fun c => if c = card then cnt c - 1 else cnt c) (lst.erase card) (i + 1)
      else
        pyRemoveLoopF fuel cnt lst (i + 1)
    else
      (cnt, lst)

/-- Entry point of the loop: the index starts at 0.  Each pass advances
the index by one and the list never grows, so the loop makes at most
`lst.length` passes; the structural fuel `lst.length` is therefore never
exhausted and the fueled loop is extensionally the source's `for` loop. -/
def pyRemoveLoop (cnt : Card → Nat) (lst : List Card) : (Card → Nat) × List Card :=
  pyRemoveLoopF lst.length cnt lst 0

/-- `CoupState.__init__(n)` followed by `Deal()` with shuffle `σ`:
two cards to each real player, 2 coins each. -/
def CoupStateNew (n : Nat) (σ : List Card → List Card) : CoupState :=
  let deck := σ GetCardDeck
  { numberOfPlayers := n + 1
    playerToMove := 1
    playerHands := fun p => if 1 ≤ p ∧ p ≤ n then (deck.drop (2 * (p - 1))).take 2 else []
    coins := fun _ => 2
    revealedCards := fun _ => 0
    knockedOut := fun _ => false
    currentAction := none
    currentActionPlayer := none
    currentActionTarget := none
    currentBlock := none
    currentBlockPlayer := none
    challenger := none
    challengingPhase := false
    revealingInfluence := false
    choosingTarget := false
    ambassadorCards := [] }

/-- The `while next != p and knockedOut[next]` loop of `GetNextPlayer`,
with explicit fuel.  The Python loop halts after at most `N - 1` steps
(the walk reaches `p` after `N - 1` advances), so fuel `N` makes the
fueled loop extensionally equal to the source's `while`. -/
def nextLoop (N p : Nat) (ko : Nat → Bool) : Nat → Nat → Nat
  | 0, next => next
  | fuel + 1, next =>
    if next ≠ p ∧ ko next then nextLoop N p ko fuel ((next % N) + 1) else next

/-- `CoupState.GetNextPlayer(p)`. -/
def GetNextPlayer (s : CoupState) (p : Nat) : Nat :=
  let N := s.numberOfPlayers - 1
  nextLoop N p s.knockedOut N ((p % N) + 1)

/-- `CoupState.DealFromDeck(n)`.  Returns the updated state *and* the
dealt cards, because in the source the counting dict `cardCount` is an
alias of `self.revealedCards`: the hand counts are first added to it and
the removal loop then decrements it, so the call mutates
`self.revealedCards`. -/
def DealFromDeck (σ : List Card → List Card) (s : CoupState) (n : Nat) :
    CoupState × List Card :=
  let cardCount := fun c =>
    s.revealedCards c + (realPlayers s).foldl (fun a p => a + (s.playerHands p).count c) 0
  let res := pyRemoveLoop cardCount GetCardDeck
  ({ s with revealedCards := res.1 }, (σ res.2).take n)

/-- `CoupState.ResetAction()`. -/
def ResetAction (s : CoupState) : CoupState :=
  { s with currentAction := none, currentActionPlayer := none, currentActionTarget := none,
           currentBlock := none, currentBlockPlayer := none, challenger := none }

/-- Shared body of the two truthful-claim branches of `ResolveChallenge`:
the claimant discards the claimed card and draws a replacement. -/
def discardAndRedraw (σ : List Card → List Card) (s : CoupState) (p : Nat) (c : Card) :
    CoupState :=
  let s2 := { s with playerHands := Function.update s.playerHands p ((s.playerHands p).erase c) }
  let res := DealFromDeck σ s2 1
  { res.1 with playerHands := Function.update res.1.playerHands p (res.1.playerHands p ++ res.2) }

/-- `CoupState.ResolveChallenge()`.  `move in hand` membership is string
equality in the source; only the five card-name strings can be members
of a hand, so a non-`role` claim is never "in hand". -/
def ResolveChallenge (σ : List Card → List Card) (s : CoupState) : CoupState :=
  match s.currentBlock with
  | some b =>
    let s' :=
      match b with
      | .role c =>
        if c ∈ s.playerHands (s.currentBlockPlayer.getD 0) then
          discardAndRedraw σ { s with playerToMove := s.challenger.getD 0 }
            (s.currentBlockPlayer.getD 0) c
        else { s with playerToMove := s.currentBlockPlayer.getD 0 }
      | _ => { s with playerToMove := s.currentBlockPlayer.getD 0 }
    { s' with challengingPhase := false, revealingInfluence := true }
  | none =>
    match s.currentAction with
    | some a =>
      let s' := { s with challengingPhase := false, revealingInfluence := true }
      match a with
      | .role c =>
        if c ∈ s'.playerHands (s'.currentActionPlayer.getD 0) then
          discardAndRedraw σ { s' with playerToMove := s'.challenger.getD 0 }
            (s'.currentActionPlayer.getD 0) c
        else { s' with playerToMove := s'.currentActionPlayer.getD 0 }
      | _ => { s' with playerToMove := s'.currentActionPlayer.getD 0 }
    | none => s

/-- `CoupState.Challenge()`. -/
def ChallengeAct (s : CoupState) : CoupState :=
  { s with challenger := some s.playerToMove, challengingPhase := false, playerToMove := 0 }

/-- `CoupState.Income()`. -/
def IncomeAct (s : CoupState) : CoupState :=
  let cap := s.currentActionPlayer.getD 0
  ResetAction { s with coins := Function.update s.coins cap (s.coins cap + 1),
                       playerToMove := GetNextPlayer s cap }

/-- `CoupState.ForeignAid()`. -/
def ForeignAidAct (s : CoupState) : CoupState :=
  let cap := s.currentActionPlayer.getD 0
  ResetAction { s with coins := Function.update s.coins cap (s.coins cap + 2),
                       playerToMove := GetNextPlayer s cap }

/-- `CoupState.Duke()`. -/
def DukeAct (s : CoupState) : CoupState :=
  let cap := s.currentActionPlayer.getD 0
  ResetAction { s with coins := Function.update s.coins cap (s.coins cap + 3),
                       playerToMove := GetNextPlayer s cap }

/-- `CoupState.Coup()`.  Note: no `ResetAction`; `currentAction` stays
`"Coup"`, which the reveal branch of `DoMove` depends on. -/
def CoupAct (s : CoupState) : CoupState :=
  let cap := s.currentActionPlayer.getD 0
  { s with coins := Function.update s.coins cap (s.coins cap - 7),
           playerToMove := s.currentActionTarget.getD 0,
           revealingInfluence := true }

/-- `CoupState.Assassin()`. -/
def AssassinAct (s : CoupState) : CoupState :=
  let tgt := s.currentActionTarget.getD 0
  if ¬ s.knockedOut tgt then
    { s with playerToMove := tgt, revealingInfluence := true }
  else
    ResetAction { s with playerToMove := GetNextPlayer s (s.currentActionPlayer.getD 0) }

/-- `CoupState.Captain()`. -/
def CaptainAct (s : CoupState) : CoupState :=
  let tgt := s.currentActionTarget.getD 0
  let cap := s.currentActionPlayer.getD 0
  let stolen := min 2 (s.coins tgt)
  let c1 := Function.update s.coins tgt (s.coins tgt - stolen)
  let c2 := Function.update c1 cap (c1 cap + stolen)
  ResetAction { s with coins := c2, playerToMove := GetNextPlayer s cap }

/-- `CoupState.Ambassador()`. -/
def AmbassadorAct (σ : List Card → List Card) (s : CoupState) : CoupState :=
  let res := DealFromDeck σ s 2
  { res.1 with ambassadorCards := res.2 }

/-- `CoupState.Allow()`, parametrized by the continuation used for the
`EnactAction(currentAction)` calls (the source's `Allow`/`EnactAction`
mutual recursion is realized through the fuel of `EnactAction` below). -/
def AllowBody (enact : CoupState → Option Move → CoupState) (s : CoupState) : CoupState :=
  let s1 := { s with playerToMove := GetNextPlayer s s.playerToMove }
  if s1.currentBlock.isSome then
    let s2 :=
      if s1.currentBlockPlayer = some s1.playerToMove then
        { s1 with playerToMove := GetNextPlayer s1 s1.playerToMove }
      else s1
    if s2.currentActionPlayer = some s2.playerToMove then
      ResetAction { s2 with playerToMove := GetNextPlayer s2 (s2.currentActionPlayer.getD 0) }
    else s2
  else if s1.challengingPhase then
    if s1.currentActionTarget.isSome then
      let s2 :=
        if s1.currentActionPlayer = some s1.playerToMove then
          { s1 with playerToMove := GetNextPlayer s1 s1.playerToMove }
        else s1
      if s2.currentActionTarget = some s2.playerToMove then
        enact { s2 with challengingPhase := false } s2.currentAction
      else s2
    else
      if s1.currentActionPlayer = some s1.playerToMove then
        enact { s1 with challengingPhase := false } s1.currentAction
      else s1
  else s1

/-- `CoupState.EnactAction(action)`: the `switcher` dispatch.  Keys
missing from the switcher (`"Contessa"`, target strings, tuples, `None`)
hit the default, which only prints `INVALID MOVE` — a no-op on the
state.  `fuel` bounds the `Allow → EnactAction` mutual recursion, which
in any legal play has depth at most 2; fuel is never exhausted in any
statement below. -/
def EnactAction (σ : List Card → List Card) : Nat → CoupState → Option Move → CoupState
  | 0, s, _ => s
  | _ + 1, s, none => s
  | fuel + 1, s, some m =>
    match m with
    | .resolveChallenge => ResolveChallenge σ s
    | .challenge => ChallengeAct s
    | .allow => AllowBody (EnactAction σ fuel) s
    | .income => IncomeAct s
    | .foreignAid => ForeignAidAct s
    | .coup => CoupAct s
    | .role .ambassador => AmbassadorAct σ s
    | .role .assassin => AssassinAct s
    | .role .captain => CaptainAct s
    | .role .duke => DukeAct s
    | .role .contessa => s
    | .target _ => s
    | .newHand _ => s

/-- Fuel for the `Allow`/`EnactAction` mutual recursion inside `DoMove`;
legal play needs depth ≤ 2, so 8 is never exhausted. -/
def enactFuel : Nat := 8

/-- The static `blocks` table of `DoMove`/`GetMoves`.  Indexing with a
move that is not one of the eight action strings raises `KeyError` in
the source; such indexings do not occur in the statements below. -/
def blocks : Move → List Card
  | .role .assassin => [.contessa]
  | .role .captain => [.ambassador, .captain]
  | .foreignAid => [.duke]
  | _ => []

/-- The static `challengable` table. -/
def challengable : Move → Bool
  | .role _ => true
  | _ => false

/-- The static `targetted` table. -/
def targetted : Move → Bool
  | .role .assassin => true
  | .role .captain => true
  | .role .contessa => true
  | .coup => true
  | _ => false

/-- The eight moves that are keys of the static tables.  The
open-an-action branch of `DoMove` indexes the tables with the move, so
any other move raises `KeyError` there (modelled as `none`). -/
def isActionMove : Move → Bool
  | .income => true
  | .foreignAid => true
  | .coup => true
  | .role _ => true
  | _ => false

/-- `CoupState.DoMove(move)`.  `none` models a Python runtime exception
(see the header comment); no branch checks membership of the move in
`GetMoves`. -/
def DoMove (σ : List Card → List Card) (m : Move) (s : CoupState) : Option CoupState :=
  if s.revealingInfluence then
    match m with
    | .role c =>
      if c ∈ s.playerHands s.playerToMove then
        let s1 := { s with
          playerHands :=
            Function.update s.playerHands s.playerToMove ((s.playerHands s.playerToMove).erase c),
          revealedCards := fun c2 => if c2 = c then s.revealedCards c2 + 1 else s.revealedCards c2,
          revealingInfluence := false }
        let s2 :=
          if (s1.playerHands s1.playerToMove).length ≤ 0 then
            { s1 with knockedOut := Function.update s1.knockedOut s1.playerToMove true }
          else s1
        some (
          if s2.currentBlock.isSome then
            if s2.currentBlockPlayer = some s2.playerToMove then
              EnactAction σ enactFuel
                { s2 with currentBlock := none, currentBlockPlayer := none } s2.currentAction
            else
              ResetAction { s2 with playerToMove := GetNextPlayer s2 (s2.currentActionPlayer.getD 0) }
          else if s2.currentAction.isSome ∧ s2.currentAction ≠ some .coup then
            if s2.challenger = some s2.playerToMove then
              EnactAction σ enactFuel
                { s2 with playerToMove := s2.currentActionPlayer.getD 0 } s2.currentAction
            else
              ResetAction { s2 with playerToMove := GetNextPlayer s2 (s2.currentActionPlayer.getD 0) }
          else
            ResetAction { s2 with playerToMove := GetNextPlayer s2 (s2.currentActionPlayer.getD 0) })
      else none
    | _ => none
  else if s.choosingTarget then
    match m with
    | .target i =>
      let s1 := { s with currentActionTarget := some i, choosingTarget := false }
      some (
        if s1.currentAction = some .coup then EnactAction σ enactFuel s1 s1.currentAction
        else { s1 with playerToMove := i, challengingPhase := true })
    | _ => none
  else if s.ambassadorCards ≠ [] then
    match m with
    | .newHand cs =>
      let cap := s.currentActionPlayer.getD 0
      let s1 := { s with playerHands := Function.update s.playerHands cap cs,
                         ambassadorCards := [] }
      some (ResetAction { s1 with playerToMove := GetNextPlayer s1 cap })
    | _ => none
  else if s.currentAction = none then
    if isActionMove m then
      let s1 := { s with currentAction := some m, currentActionPlayer := some s.playerToMove }
      let s2 :=
        if m = .role .assassin then
          { s1 with coins := Function.update s1.coins (s1.currentActionPlayer.getD 0)
                              (s1.coins (s1.currentActionPlayer.getD 0) - 3) }
        else s1
      some (
        if targetted m then { s2 with choosingTarget := true }
        else if challengable m ∨ blocks m ≠ [] then
          { s2 with challengingPhase := true, playerToMove := GetNextPlayer s2 s2.playerToMove }
        else EnactAction σ enactFuel s2 (some m))
    else none
  else if s.challengingPhase ∧ m ∉ ([.allow, .challenge] : List Move) then
    some { s with challengingPhase := false, currentBlock := some m,
                  currentBlockPlayer := some s.playerToMove,
                  playerToMove := s.currentActionPlayer.getD 0 }
  else
    some (EnactAction σ enactFuel s (some m))

/-- `itertools.combinations`, in the source's enumeration order
(index-increasing tuples). -/
def combinations : Nat → List Card → List (List Card)
  | 0, _ => [[]]
  | _ + 1, [] => []
  | n + 1, x :: xs => (combinations n xs).map (x :: ·) ++ combinations (n + 1) xs

/-- The first guard of `GetMoves`:
`all(self.knockedOut[i] for i in range(1, self.numberOfPlayers) if i != self.playerToMove)`. -/
def allOpponentsOut (s : CoupState) : Bool :=
  ((realPlayers s).filter (fun i => i ≠ s.playerToMove)).all s.knockedOut

/-- `CoupState.GetMoves()`.  `list(set(...))` in the ambassador branch
is modelled as first-occurrence deduplication (`eraseDups`): the set of
returned moves is exactly the source's; only the (hash-dependent,
unspecified) ordering of CPython's `set` is fixed.  In the challenging
branch the source indexes `blocks`/`challengable` with
`self.currentAction`, which is always set there in legal play; `getD`
supplies a default for totality. -/
def GetMoves (s : CoupState) : List Move :=
  if allOpponentsOut s then []
  else if s.playerToMove = 0 then [.resolveChallenge]
  else if s.revealingInfluence then (s.playerHands s.playerToMove).map .role
  else if s.choosingTarget then
    ((realPlayers s).filter (fun i => i ≠ s.playerToMove ∧ ¬ s.knockedOut i)).map .target
  else if s.currentBlock.isSome then [.allow, .challenge]
  else if s.challengingPhase then
    let a := s.currentAction.getD .income
    ([.allow] ++ ((blocks a).filter (fun c => s.revealedCards c < 3)).map .role)
      ++ (if challengable a then [.challenge] else [])
  else if s.ambassadorCards ≠ [] then
    let possibleCards := s.ambassadorCards ++ s.playerHands s.playerToMove
    let handLength := (s.playerHands (s.currentActionPlayer.getD 0)).length
    ((combinations handLength possibleCards).eraseDups).map .newHand
  else if s.coins s.playerToMove ≥ 10 then [.coup]
  else
    let options : List Move :=
      [.income, .foreignAid, .role .duke, .role .captain, .role .ambassador]
        ++ (if s.coins s.playerToMove ≥ 3 then [.role .assassin] else [])
        ++ (if s.coins s.playerToMove ≥ 7 then [.coup] else [])
    options.filter (fun o => (match o with | .role c => s.revealedCards c | _ => 0) < 3)

/-- `CoupState.GetResult(player)`. -/
def GetResult (s : CoupState) (player : Nat) : Nat :=
  if player = 0 then 0 else if s.knockedOut player then 0 else 1

/-- The dealing loop shared by `CloneAndRandomize` (skipping the
observer) and `CloneAndSelfDeterminize` (skipping nobody).  Hand sizes
are read from the *original* hands (`len(self.playerHands[p])` in the
source). -/
def dealLoop (orig : Nat → List Card) (skip : Option Nat) :
    List Nat → (Nat → List Card) → List Card → (Nat → List Card)
  | [], hands, _ => hands
  | p :: ps, hands, cards =>
    if some p = skip then dealLoop orig skip ps hands cards
    else
      let n := (orig p).length
      dealLoop orig skip ps (Function.update hands p (cards.take n)) (cards.drop n)

/-- `CoupState.CloneAndRandomize(observer)`.  In the source `seenCount`
is an alias of the *clone's* `revealedCards`: the observer's hand counts
are added to it and the removal loop then decrements it, so the clone's
revealed pile ends up consumed.  The receiver is not modified. -/
def CloneAndRandomize (s : CoupState) (observer : Nat) (σ : List Card → List Card) :
    CoupState :=
  let seenCount := fun c => s.revealedCards c + (s.playerHands observer).count c
  let res := pyRemoveLoop seenCount GetCardDeck
  let shuffled := σ res.2
  { s with revealedCards := res.1,
           playerHands := dealLoop s.playerHands (some observer) (realPlayers s)
                            s.playerHands shuffled }

/-- `CoupState.CloneAndSelfDeterminize()`.  In the source `seenCount` is
an alias of the **receiver's** `revealedCards` (note: `self`, not `st`),
so the removal loop mutates the receiver.  The clone was deep-copied
before the mutation, so the clone keeps the original revealed pile.
Returns `(clone, mutated receiver)`. -/
def CloneAndSelfDeterminize (s : CoupState) (σ : List Card → List Card) :
    CoupState × CoupState :=
  let res := pyRemoveLoop s.revealedCards GetCardDeck
  let shuffled := σ res.2
  let clone := { s with playerHands := dealLoop s.playerHands none (realPlayers s)
                          s.playerHands shuffled }
  (clone, { s with revealedCards := res.1 })

/-- Number of copies of role `c` held across all real players' hands. -/
def heldCount (s : CoupState) (c : Card) : Nat :=
  (realPlayers s).foldl (fun a p => a + (s.playerHands p).count c) 0

/-! ## The search tree and the ISMCTS engine -/

/-- The fields of `Node.__init__`: `wins` accumulates the 0/1 results of
`GetResult`, `avails` starts at 1. -/
structure NodeInfo where
  move : Option Move
  wins : Nat
  visits : Nat
  avails : Nat
  playerJustMoved : Option Nat
deriving DecidableEq, Repr

/-- The mutable tree of `Node` objects, as a rose tree. -/
inductive ISTree where
  | node : NodeInfo → List ISTree → ISTree

def ISTree.info : ISTree → NodeInfo
  | .node i _ => i

def ISTree.children : ISTree → List ISTree
  | .node _ cs => cs

instance : Inhabited ISTree := ⟨.node ⟨none, 0, 0, 1, none⟩ []⟩

/-- `Node.GetUntriedMoves(legalMoves)`. -/
def GetUntriedMoves (cs : List ISTree) (legalMoves : List Move) : List Move :=
  legalMoves.filter (fun m => decide (some m ∉ cs.map (fun c => c.info.move)))

/-- The UCB1 key of `Node.UCBSelectChild`:
`wins/visits + exploration * sqrt(log(avails)/visits)`, idealized over
the reals (the source computes it in 64-bit floats). -/
noncomputable def ucbVal (exploration : ℝ) (n : NodeInfo) : ℝ :=
  (n.wins : ℝ) / (n.visits : ℝ) + exploration * Real.sqrt (Real.log (n.avails : ℝ) / (n.visits : ℝ))

/-- Python's `max(x :: xs, key)`: scan left to right, replacing the
current best only on a strictly larger key, so ties keep the earliest
element. -/
noncomputable def pyMaxBy {α : Type} (key : α → ℝ) (x : α) (xs : List α) : α :=
  xs.foldl (fun b y => if key b < key y then y else b) x

/-- `child.move in legalMoves` for a tree node. -/
def isLegalChild (legalMoves : List Move) (c : ISTree) : Bool :=
  decide (c.info.move ∈ legalMoves.map some)

/-- Index (into `childNodes`) of the child selected by
`Node.UCBSelectChild`.  When no child is legal the source's `max(())`
raises `ValueError`; that case returns the out-of-range index
`cs.length`. -/
noncomputable def UCBSelectIdx (exploration : ℝ) (legalMoves : List Move)
    (cs : List ISTree) : Nat :=
  match (List.range cs.length).filter (fun i => isLegalChild legalMoves (cs.getD i default)) with
  | [] => cs.length
  | i :: is => pyMaxBy (fun j => ucbVal exploration (cs.getD j default).info) i is

/-- `child.avails += 1`. -/
def bumpAvail : ISTree → ISTree
  | .node i cs => .node { i with avails := i.avails + 1 } cs

/-- The side effect of `UCBSelectChild`: every *legal* child's `avails`
is incremented by one. -/
def bumpLegalChildren (legalMoves : List Move) (cs : List ISTree) : List ISTree :=
  cs.map (fun c => if isLegalChild legalMoves c then bumpAvail c else c)

/-- `Node.Update(terminalState)`. -/
def updateNode (info : NodeInfo) (terminalState : CoupState) : NodeInfo :=
  { info with
      visits := info.visits + 1,
      wins := info.wins +
        (match info.playerJustMoved with
         | some p => GetResult terminalState p
         | none => 0) }

/-- Total wrapper around `DoMove` used inside the search: every move the
search applies comes from `GetMoves`, on which `DoMove` never raises; the
`getD` default is never taken there. -/
def doMoveT (σ : List Card → List Card) (m : Move) (s : CoupState) : CoupState :=
  (DoMove σ m s).getD s

/-- The rollout loop `while state.GetMoves() != []: state.DoMove(random.choice(...))`,
with fuel (the Python loop is unbounded; fuel exhaustion returns the
current state).  `σs j` is the shuffle used by the `j`-th rollout move,
`choice j` picks the move index. -/
def simulate (σs : Nat → List Card → List Card) (choice : Nat → Nat) :
    Nat → Nat → CoupState → CoupState
  | 0, _, s => s
  | fuel + 1, j, s =>
    match GetMoves s with
    | [] => s
    | m :: ms =>
      simulate σs choice fuel (j + 1)
        (doMoveT (σs j) ((m :: ms).getD (choice j % (ms.length + 1)) m) s)

/-- The random choices of one ISMCTS iteration: `det` is the shuffle used
by the determinization, `shuffle k` the shuffle consumed by the `k`-th
`DoMove` of the iteration, `expandChoice` selects the untried move,
`rollChoice j` selects the `j`-th rollout move. -/
structure SearchOracle where
  det : List Card → List Card
  shuffle : Nat → List Card → List Card
  expandChoice : Nat
  rollChoice : Nat → Nat

/-- One iteration of the ISMCTS loop: select (descending while the node
has no untried legal moves ), expand, simulate, and backpropagate.  The
returned tree is the input tree with all updates of the iteration
applied; the returned state is the state reached at the end of the
rollout (the argument of every `Update` call of the backpropagation).
`k` counts the `DoMove` calls already performed in this iteration. -/
noncomputable def iterateStep (ex : ℝ) (or : SearchOracle) (simFuel : Nat) :
    Nat → ISTree → CoupState → ISTree × CoupState
  | k, .node info cs, s =>
    let moves := GetMoves s
    if moves ≠ [] ∧ GetUntriedMoves cs moves = [] then
      let j := UCBSelectIdx ex moves cs
      if h : j < cs.length then
        let child := cs.get ⟨j, h⟩
        let s1 :=
          match child.info.move with
          | some m => doMoveT (or.shuffle k) m s
          | none => s
        let res := iterateStep ex or simFuel (k + 1) child s1
        (.node (updateNode info res.2) ((bumpLegalChildren moves cs).set j (bumpAvail res.1)),
         res.2)
      else
        (.node (updateNode info s) cs, s)
    else
      match GetUntriedMoves cs moves with
      | [] => (.node (updateNode info s) cs, s)
      | u :: us =>
        let untried := u :: us
        let m := untried.getD (or.expandChoice % untried.length) u
        let p := s.playerToMove
        let s1 := doMoveT (or.shuffle k) m s
        let sEnd := simulate (fun j2 => or.shuffle (k + 1 + j2)) or.rollChoice simFuel 0 s1
        (.node (updateNode info sEnd) (cs ++ [.node ⟨some m, GetResult sEnd p, 1, 1, some p⟩ []]),
         sEnd)
termination_by _k t _s => sizeOf t
decreasing_by
  have h1 : sizeOf (cs.get ⟨UCBSelectIdx ex (GetMoves s) cs, h⟩) < sizeOf cs :=
    List.sizeOf_lt_of_mem (cs.get_mem _ _)
  simp only [ISTree.node.sizeOf_spec]
  omega

/-- `Node()` as created at the top of `ISMCTS`. -/
def rootNode : ISTree := .node ⟨none, 0, 0, 1, none⟩ []

/-- Python's `max(children, key=lambda c: c.visits)`: ties keep the
earliest child. -/
def pyMaxVisits (x : ISTree) (xs : List ISTree) : ISTree :=
  xs.foldl (fun b y => if b.info.visits < y.info.visits then y else b) x

/-- The `for i in range(itermax)` loop of `ISMCTS` (single-observer
determinization).  `i` is the current iteration index, the second
argument the remaining iterations. -/
noncomputable def ISMCTSLoop (ex : ℝ) (oracles : Nat → SearchOracle) (simFuel : Nat)
    (rootstate : CoupState) : Nat → Nat → ISTree → ISTree
  | _, 0, t => t
  | i, rem + 1, t =>
    let or := oracles i
    let st := CloneAndRandomize rootstate rootstate.playerToMove or.det
    ISMCTSLoop ex oracles simFuel rootstate (i + 1) rem (iterateStep ex or simFuel 0 t st).1

/-- The tree built by `ISMCTS(rootstate, itermax, exploration)`. -/
noncomputable def ISMCTSTree (rootstate : CoupState) (itermax : Nat) (ex : ℝ)
    (oracles : Nat → SearchOracle) (simFuel : Nat) : ISTree :=
  ISMCTSLoop ex oracles simFuel rootstate 0 itermax rootNode

/-- `ISMCTS(rootstate, itermax, exploration)`.  The final line of the
source is `max(rootnode.childNodes, key=lambda c: c.visits).move`;
`.error ()` models the `ValueError` that `max` raises on an empty
sequence of children. -/
noncomputable def ISMCTS (rootstate : CoupState) (itermax : Nat) (ex : ℝ)
    (oracles : Nat → SearchOracle) (simFuel : Nat) : Except Unit Move :=
  match (ISMCTSTree rootstate itermax ex oracles simFuel).children with
  | [] => .error ()
  | c :: cs =>
    match (pyMaxVisits c cs).info.move with
    | some m => .ok m
    | none => .error ()

/-- The determinization test `i < itermax * 0.7` of `ISMCTS_Split`,
written exactly over the integers: for every `i` and `itermax` arising
here the 64-bit-float comparison of the source agrees with the exact
rational comparison `i < itermax * 7/10`, i.e. `10 * i < 7 * itermax`
(the float product `itermax * 0.7` differs from the exact product by
less than `2⁻⁴⁰` for any representable `itermax`, and when the exact
product is an integer `k` the float product rounds to `k` or to the
float just below it, neither of which changes any comparison against an
integer `i`). -/
def splitUsesSelfDet (itermax i : Nat) : Bool := 10 * i < 7 * itermax

/-- The iteration loop of `ISMCTS_Split`.  Note that the root state must
be threaded through: on self-determinizing iterations
`CloneAndSelfDeterminize` mutates the root state's revealed pile. -/
noncomputable def ISMCTSSplitLoop (ex : ℝ) (oracles : Nat → SearchOracle) (simFuel : Nat)
    (itermax : Nat) : Nat → Nat → CoupState → ISTree → ISTree
  | _, 0, _, t => t
  | i, rem + 1, rootstate, t =>
    let or := oracles i
    if splitUsesSelfDet itermax i then
      let res := CloneAndSelfDeterminize rootstate or.det
      ISMCTSSplitLoop ex oracles simFuel itermax (i + 1) rem res.2
        (iterateStep ex or simFuel 0 t res.1).1
    else
      let st := CloneAndRandomize rootstate rootstate.playerToMove or.det
      ISMCTSSplitLoop ex oracles simFuel itermax (i + 1) rem rootstate
        (iterateStep ex or simFuel 0 t st).1

/-- `ISMCTS_Split(rootstate, itermax, exploration)`. -/
noncomputable def ISMCTS_Split (rootstate : CoupState) (itermax : Nat) (ex : ℝ)
    (oracles : Nat → SearchOracle) (simFuel : Nat) : Except Unit Move :=
  match (ISMCTSSplitLoop ex oracles simFuel itermax 0 itermax rootstate rootNode).children with
  | [] => .error ()
  | c :: cs =>
    match (pyMaxVisits c cs).info.move with
    | some m => .ok m
    | none => .error ()

mutual

/-- Every node of the subtree, including its root, has `visits ≥ 1` and
`avails ≥ 1` (the soundness property needed by every non-root node: such
nodes are exactly the ones `UCBSelectChild` can evaluate). -/
def subOK : ISTree → Bool
  | .node i cs => (1 ≤ i.visits && 1 ≤ i.avails) && allSubOK cs

def allSubOK : List ISTree → Bool
  | [] => true
  | c :: cs => subOK c && allSubOK cs

end

/-- Invariant of the search tree: every non-root node has `visits ≥ 1`
and `avails ≥ 1` (so the UCB1 key never divides by zero nor takes the
logarithm of a non-positive number), and the root's `avails` is also at
least 1. -/
def searchInvariant (t : ISTree) : Bool :=
  allSubOK t.children && 1 ≤ t.info.avails

/-! ## Concrete states, shuffles and traces used by the claims -/

/-- A fixed initial shuffle: player 1 gets `[Duke, Contessa]`, player 2
`[Contessa, Ambassador]`, player 3 `[Duke, Duke]`.  A permutation of the
deck, as certified in `c1_conservation_violated`. -/
def sigma0 : List Card → List Card := fun _ =>
  [.duke, .contessa, .contessa, .ambassador, .duke, .duke,
   .ambassador, .ambassador, .assassin, .assassin, .assassin,
   .captain, .captain, .captain, .contessa]

/-- A genuine shuffle (permutation of any input) that brings all Dukes
to the front. -/
def dukesFirst : List Card → List Card := fun l =>
  l.filter (fun c => c == .duke) ++ l.filter (fun c => !(c == .duke))

/-- Apply a sequence of moves, each with its own shuffle, *checking that
each move is legal* (`m ∈ GetMoves`) before applying it; `none` if some
move is illegal or `DoMove` fails. -/
def applyTrace : List ((List Card → List Card) × Move) → CoupState → Option CoupState
  | [], s => some s
  | (σ, m) :: rest, s =>
    if m ∈ GetMoves s then (DoMove σ m s).bind (applyTrace rest) else none

/-- A 9-move legal game prefix for three players (hands dealt by
`sigma0`): player 1 takes Income; player 2 bluffs Duke, player 3
challenges, the environment resolves (player 2 has no Duke), player 2
reveals Contessa; player 3 takes Income; player 1 claims Duke
(truthfully), player 2 challenges, the environment resolves — player 1
discards the Duke and `DealFromDeck` redraws (with `dukesFirst`, a
Duke). -/
def c1trace : List ((List Card → List Card) × Move) :=
  [(id, .income),
   (id, .role .duke),
   (id, .challenge),
   (id, .resolveChallenge),
   (id, .role .contessa),
   (id, .income),
   (id, .role .duke),
   (id, .challenge),
   (dukesFirst, .resolveChallenge)]

/-- A state with one revealed Duke (and fresh 2-player content
otherwise): the smallest input on which the determinizers' aliasing of
`revealedCards` is observable. -/
def revealedDukeState : CoupState :=
  { CoupStateNew 2 id with revealedCards := fun c => if c = .duke then 1 else 0 }

/-- A freshly constructed 2-player state (identity shuffle): both
players hold 2 cards and 2 coins. -/
def freshTwoPlayer : CoupState := CoupStateNew 2 id

/-- The ambassador-exchange state of spec scenario 5: the actor
(player 1) holds `[Assassin, Captain]` and has drawn `[Duke, Captain]`. -/
def ambassadorExchangeState : CoupState :=
  { CoupStateNew 2 id with
      playerHands := fun p =>
        if p = 1 then [.assassin, .captain]
        else if p = 2 then [.duke, .duke] else [],
      currentAction := some (.role .ambassador),
      currentActionPlayer := some 1,
      ambassadorCards := [.duke, .captain] }

/-- Cyclic distance from `a` to `b` along the step `v ↦ (v % N) + 1`,
for `a, b ∈ [1, N]`. -/
def cycDist (N a b : Nat) : Nat := if a ≤ b then b - a else b + N - a

/-- Two concrete children for the `c9_ucb_select_spec` witness. -/
def c9childA : ISTree := .node ⟨some .income, 1, 2, 3, some 1⟩ []

def c9childB : ISTree := .node ⟨some .coup, 0, 1, 1, some 1⟩ []

def c9children : List ISTree := [c9childA, c9childB]

/-- A terminal 2-player state: player 2 is knocked out, so player 1 (to
move) has no live opponent and `GetMoves` is empty. -/
def terminalState : CoupState :=
  { CoupStateNew 2 id with knockedOut := fun p => p == 2 }

/-- A trivial random oracle (identity shuffles, first choices). -/
def trivOracle : SearchOracle :=
  { det := id, shuffle := fun _ => id, expandChoice := 0, rollChoice := fun _ => 0 }

/-! ## C1 -/

/-- Claim C1: the three-of-each-role conservation invariant is supposed
to hold in every state reachable by legal moves from a fresh state.  It
does not: after the legal trace `c1trace` (every move checked against
`GetMoves` by `applyTrace`), the final state records one *revealed* Duke
while *three* Dukes sit in hands — revealed + held = 4 > 3 for Duke, so
no residual-deck count can restore the sum to 3 — and the Contessa that
was legally revealed at move 5 has vanished from the revealed pile
(count 0).  The cause: `DealFromDeck` uses `self.revealedCards` itself
as its counting dict, so the deal performed inside the final
`Resolve Challenge` overwrites the revealed pile with the loop's residue.
The last two conjuncts certify that the two non-trivial shuffles used
are genuine permutations, i.e. possible outcomes of `random.shuffle`. -/
theorem c1_conservation_violated :
    ((applyTrace c1trace (CoupStateNew 3 sigma0)).map
        (fun s => s.revealedCards .duke + heldCount s .duke) = some 4
      ∧ (applyTrace c1trace (CoupStateNew 3 sigma0)).map
          (fun s => s.revealedCards .contessa) = some 0)
    ∧ List.Perm (sigma0 GetCardDeck) GetCardDeck
    ∧ ∀ l : List Card, List.Perm (dukesFirst l) l := by
  refine ⟨⟨by decide, by decide⟩, by decide, fun l => List.filter_append_perm (fun c => c == Card.duke) l⟩

/-! ## C2 -/

/-- Claim C2: `self_determinize()` is supposed to leave the receiver
unchanged.  It does not: in `CloneAndSelfDeterminize` the counting dict
`seenCount` is `self.revealedCards` itself, and the unseen-deck loop
decrements it, so on a state with one revealed Duke the *receiver's*
revealed-Duke count drops to 0 during the call (for any shuffle; shown
here at the identity shuffle). -/
theorem c2_receiver_mutated :
    ((CloneAndSelfDeterminize revealedDukeState id).2).revealedCards .duke = 0
      ∧ revealedDukeState.revealedCards .duke = 1 := by
  exact ⟨by decide, by decide⟩

/-! ## C3 -/

/-- Claim C3: `randomize_for(p)` is supposed to return a clone whose
revealed pile is identical to the receiver's.  It does not: in
`CloneAndRandomize` the counting dict `seenCount` aliases the *clone's*
`revealedCards`, which the unseen-deck loop consumes, so on a state with
one revealed Duke the returned clone's revealed-Duke count is 0 (for any
shuffle; shown here at the identity shuffle). -/
theorem c3_clone_revealed_pile_clobbered :
    (CloneAndRandomize revealedDukeState 1 id).revealedCards .duke = 0
      ∧ revealedDukeState.revealedCards .duke = 1 := by
  exact ⟨by decide, by decide⟩

/-! ## C4 -/

/-- Claim C4 counterexample: on a fresh 2-player state `Coup` is not a
legal move (2 coins < 7), yet `DoMove` neither fails nor leaves the
state unchanged: it silently opens the Coup action and enters the
choosing-target phase. -/
theorem c4_illegal_move_silently_applied :
    Move.coup ∉ GetMoves freshTwoPlayer
      ∧ (DoMove id .coup freshTwoPlayer).map CoupState.choosingTarget = some true
      ∧ freshTwoPlayer.choosingTarget = false := by
  exact ⟨by decide, by decide, by decide⟩

/-- Claim C4 amended: `DoMove` performs no legality check at all.
Whenever no action is in flight and no phase flag is set, *any* `Coup`
move — legal or not, regardless of the mover's coins — is accepted and
opens the choosing-target phase. -/
theorem c4_no_legality_check (s : CoupState) (σ : List Card → List Card)
    (h1 : s.revealingInfluence = false) (h2 : s.choosingTarget = false)
    (h3 : s.ambassadorCards = []) (h4 : s.currentAction = none) :
    DoMove σ .coup s =
      some { s with currentAction := some .coup,
                    currentActionPlayer := some s.playerToMove,
                    choosingTarget := true } := by
  simp [DoMove, h1, h2, h3, h4, isActionMove, targetted]

/-- Witness for `c4_no_legality_check` at the fresh 2-player state. -/
theorem c4_no_legality_check_witness :
    DoMove id .coup freshTwoPlayer =
      some { freshTwoPlayer with currentAction := some .coup,
                                 currentActionPlayer := some freshTwoPlayer.playerToMove,
                                 choosingTarget := true } :=
  c4_no_legality_check freshTwoPlayer id rfl rfl rfl rfl

/-! ## C6 -/

/-- Claim C6 counterexample: in the spec's concrete ambassador scenario
the returned move set contains both `NewHand (Captain, Assassin)` and
`NewHand (Assassin, Captain)` — two *distinct* moves that are equal as
multisets — so the legal hands are not coalesced by multiset. -/
theorem c6_multiset_duplicates_returned :
    Move.newHand [.captain, .assassin] ∈ GetMoves ambassadorExchangeState
      ∧ Move.newHand [.assassin, .captain] ∈ GetMoves ambassadorExchangeState
      ∧ Move.newHand [.captain, .assassin] ≠ Move.newHand [.assassin, .captain]
      ∧ List.Perm [Card.captain, Card.assassin] [Card.assassin, Card.captain] := by
  exact ⟨by decide, by decide, by decide, by decide⟩

/-- Claim C6 amended: the ambassador move set is the set of *distinct
ordered tuples* produced by `itertools.combinations` over
`ambassadorCards ++ hand` (duplicates coalesced as tuples, not as
multisets).  In the spec's concrete scenario this yields exactly these
five tuple-moves — which represent only four distinct multisets, since
the third and fifth are permutations of each other. -/
theorem c6_tuple_move_set :
    GetMoves ambassadorExchangeState =
      [.newHand [.duke, .captain], .newHand [.duke, .assassin],
       .newHand [.captain, .assassin], .newHand [.captain, .captain],
       .newHand [.assassin, .captain]] := by
  decide

/-! ## C7 -/

/-- Claim C7 counterexample: with `itermax = 3` the source's test
`i < itermax * 0.7` (here `splitUsesSelfDet 3 i`, i.e. `10·i < 7·3`) is
*true* at `i = 2`, so `self_determinize` is used on three iterations,
not on the claimed first `⌊0.7·3⌋ = 2` iterations. -/
theorem c7_floor_is_wrong :
    splitUsesSelfDet 3 2 = true ∧ ¬ (2 < 7 * 3 / 10) := by
  exact ⟨by decide, by decide⟩

/-- Claim C7 amended: `ismcts_split` determinizes via
`self_determinize()` on exactly the first `⌈0.7·iter_max⌉` iterations
(`(7·iter_max + 9) / 10` in integer arithmetic), and via
`randomize_for` thereafter. -/
theorem c7_selfdet_iff_below_ceil (itermax i : Nat) :
    splitUsesSelfDet itermax i = true ↔ i < (7 * itermax + 9) / 10 := by
  simp only [splitUsesSelfDet, decide_eq_true_eq]
  omega

/-! ## C8: turn order -/

theorem cycDist_zero_eq {N a b : Nat} (ha1 : 1 ≤ a) (haN : a ≤ N) (hb1 : 1 ≤ b)
    (hbN : b ≤ N) (h : cycDist N a b = 0) : a = b := by
  simp only [cycDist] at h
  split at h <;> omega

theorem step_in_range {N : Nat} (a : Nat) (hN : 1 ≤ N) :
    1 ≤ (a % N) + 1 ∧ (a % N) + 1 ≤ N := by
  have := Nat.mod_lt a (show 0 < N by omega)
  omega

theorem step_eq {N a : Nat} (haN : a ≤ N) (ha1 : 1 ≤ a) :
    (a % N) + 1 = if a = N then 1 else a + 1 := by
  by_cases h : a = N
  · subst h; simp [Nat.mod_self]
  · have hlt : a < N := lt_of_le_of_ne haN h
    rw [Nat.mod_eq_of_lt hlt, if_neg h]

theorem cycDist_step {N a b : Nat} (ha1 : 1 ≤ a) (haN : a ≤ N) (hb1 : 1 ≤ b)
    (hbN : b ≤ N) (hne : a ≠ b) :
    cycDist N ((a % N) + 1) b + 1 = cycDist N a b := by
  rw [step_eq haN ha1]
  simp only [cycDist]
  split_ifs <;> omega

theorem cycDist_le {N a b : Nat} (ha1 : 1 ≤ a) (haN : a ≤ N) (hb1 : 1 ≤ b)
    (hbN : b ≤ N) : cycDist N a b ≤ N - 1 := by
  simp only [cycDist]; split <;> omega

theorem cycDist_back_to_p {N p : Nat} (hp1 : 1 ≤ p) (hpN : p ≤ N) :
    cycDist N ((p % N) + 1) p = N - 1 := by
  rw [step_eq hpN hp1]
  simp only [cycDist]
  split_ifs <;> omega

theorem nextLoop_range {N p : Nat} {ko : Nat → Bool} (hN : 1 ≤ N) :
    ∀ f next, 1 ≤ next → next ≤ N →
      1 ≤ nextLoop N p ko f next ∧ nextLoop N p ko f next ≤ N := by
  intro f
  induction f with
  | zero => intro next h1 h2; exact ⟨h1, h2⟩
  | succ f ih =>
    intro next h1 h2
    simp only [nextLoop]
    split
    · exact ih _ (step_in_range next hN).1 (step_in_range next hN).2
    · exact ⟨h1, h2⟩

theorem nextLoop_live {N p : Nat} {ko : Nat → Bool} (hp1 : 1 ≤ p) (hpN : p ≤ N) :
    ∀ f next, 1 ≤ next → next ≤ N →
      (∃ q, 1 ≤ q ∧ q ≤ N ∧ ko q = false ∧ cycDist N next q ≤ f ∧
        cycDist N next q ≤ cycDist N next p) →
      ko (nextLoop N p ko f next) = false := by
  intro f
  induction f with
  | zero =>
    rintro next h1 h2 ⟨q, hq1, hqN, hqko, hqf, -⟩
    have hq : next = q := cycDist_zero_eq h1 h2 hq1 hqN (Nat.le_zero.mp hqf)
    rw [nextLoop, hq]
    exact hqko
  | succ f ih =>
    rintro next h1 h2 ⟨q, hq1, hqN, hqko, hqf, hqp⟩
    simp only [nextLoop]
    split
    · rename_i hcond
      obtain ⟨hnp, hko⟩ := hcond
      have hqne : next ≠ q := by
        intro h
        rw [h, hqko] at hko
        exact Bool.false_ne_true hko
      have hstepq := cycDist_step h1 h2 hq1 hqN hqne
      have hstepp := cycDist_step h1 h2 hp1 hpN hnp
      exact ih _ (step_in_range next (le_trans hp1 hpN)).1
        (step_in_range next (le_trans hp1 hpN)).2
        ⟨q, hq1, hqN, hqko, by omega, by omega⟩
    · rename_i hcond
      by_cases hnp : next = p
      · subst hnp
        have hz : cycDist N next next = 0 := by simp [cycDist]
        have hq : next = q := cycDist_zero_eq h1 h2 hq1 hqN (by omega)
        rw [hq]
        exact hqko
      · rcases Bool.eq_false_or_eq_true (ko next) with h | h
        · exact absurd ⟨hnp, h⟩ hcond
        · exact h

/-- Claim C8: for every player `p ∈ 1..N`, `GetNextPlayer` (which is
literally `(p % N) + 1` advanced past knocked-out players until a live
player is found or the cycle returns to `p` — see `nextLoop`) returns a
value in `1..N`, hence never the environment player `0`; and whenever at
least one live player other than `p` exists, the returned player is not
knocked out. -/
theorem c8_next_player_sound (s : CoupState) (p : Nat)
    (hp1 : 1 ≤ p) (hpN : p ≤ s.numberOfPlayers - 1) :
    (GetNextPlayer s p ≠ 0 ∧ 1 ≤ GetNextPlayer s p
        ∧ GetNextPlayer s p ≤ s.numberOfPlayers - 1)
      ∧ ((∃ q, 1 ≤ q ∧ q ≤ s.numberOfPlayers - 1 ∧ q ≠ p ∧ s.knockedOut q = false) →
          s.knockedOut (GetNextPlayer s p) = false) := by
  have hN : 1 ≤ s.numberOfPlayers - 1 := le_trans hp1 hpN
  have hrange := @nextLoop_range (s.numberOfPlayers - 1) p s.knockedOut hN (s.numberOfPlayers - 1)
    ((p % (s.numberOfPlayers - 1)) + 1) (step_in_range p hN).1 (step_in_range p hN).2
  refine ⟨⟨by have := hrange.1; simp only [GetNextPlayer]; omega,
           hrange.1, hrange.2⟩, ?_⟩
  rintro ⟨q, hq1, hqN, hqne, hqko⟩
  exact nextLoop_live hp1 hpN (s.numberOfPlayers - 1)
    ((p % (s.numberOfPlayers - 1)) + 1) (step_in_range p hN).1 (step_in_range p hN).2
    ⟨q, hq1, hqN, hqko,
     by have h1 := cycDist_le (step_in_range p hN).1 (step_in_range p hN).2 hq1 hqN; omega,
     by have h1 := cycDist_le (step_in_range p hN).1 (step_in_range p hN).2 hq1 hqN
        have h2 := cycDist_back_to_p hp1 hpN
        omega⟩

/-- A 4-player state in which player 2 is knocked out (spec scenario 6). -/
def knockedOutTwoState : CoupState :=
  { CoupStateNew 4 id with knockedOut := fun p => p == 2 }

/-- Witness for `c8_next_player_sound`: in `knockedOutTwoState` the
player after player 1 is live and is not the environment. -/
theorem c8_next_player_sound_witness :
    knockedOutTwoState.knockedOut (GetNextPlayer knockedOutTwoState 1) = false
      ∧ GetNextPlayer knockedOutTwoState 1 ≠ 0 :=
  ⟨(c8_next_player_sound knockedOutTwoState 1 (by decide) (by decide)).2
      ⟨3, by decide, by decide, by decide, by decide⟩,
   (c8_next_player_sound knockedOutTwoState 1 (by decide) (by decide)).1.1⟩

/-! ## C9: UCB child selection -/

theorem getD_eq_get_of_lt {α : Type} (l : List α) (d : α) {n : Nat} (h : n < l.length) :
    l.getD n d = l.get ⟨n, h⟩ := by
  rw [List.getD_eq_getElem l d h]
  exact (List.get_eq_getElem l ⟨n, h⟩).symm

theorem pyMaxBy_mem {α : Type} (key : α → ℝ) :
    ∀ (xs : List α) (x : α), pyMaxBy key x xs ∈ x :: xs := by
  intro xs
  induction xs with
  | nil => intro x; simp [pyMaxBy]
  | cons y ys ih =>
    intro x
    have hstep : pyMaxBy key x (y :: ys) = pyMaxBy key (if key x < key y then y else x) ys := rfl
    rw [hstep]
    by_cases hc : key x < key y
    · rw [if_pos hc]
      rcases List.mem_cons.mp (ih y) with h1 | h1
      · rw [h1]; exact List.mem_cons_of_mem _ (List.mem_cons_self _ _)
      · exact List.mem_cons_of_mem _ (List.mem_cons_of_mem _ h1)
    · rw [if_neg hc]
      rcases List.mem_cons.mp (ih x) with h1 | h1
      · rw [h1]; exact List.mem_cons_self _ _
      · exact List.mem_cons_of_mem _ (List.mem_cons_of_mem _ h1)

theorem pyMaxBy_le {α : Type} (key : α → ℝ) :
    ∀ (xs : List α) (x : α) (z : α), z ∈ x :: xs → key z ≤ key (pyMaxBy key x xs) := by
  intro xs
  induction xs with
  | nil =>
    intro x z hz
    rcases List.mem_cons.mp hz with h | h
    · rw [h]; simp [pyMaxBy]
    · exact absurd h (List.not_mem_nil z)
  | cons y ys ih =>
    intro x z hz
    have hstep : pyMaxBy key x (y :: ys) = pyMaxBy key (if key x < key y then y else x) ys := rfl
    rw [hstep]
    by_cases hc : key x < key y
    · rw [if_pos hc]
      rcases List.mem_cons.mp hz with h1 | h1
      · rw [h1]
        exact le_trans (le_of_lt hc) (ih y y (List.mem_cons_self _ _))
      rcases List.mem_cons.mp h1 with h2 | h2
      · rw [h2]
        exact ih y y (List.mem_cons_self _ _)
      · exact ih y z (List.mem_cons_of_mem _ h2)
    · rw [if_neg hc]
      rcases List.mem_cons.mp hz with h1 | h1
      · rw [h1]
        exact ih x x (List.mem_cons_self _ _)
      rcases List.mem_cons.mp h1 with h2 | h2
      · rw [h2]
        exact le_trans (le_of_not_lt hc) (ih x x (List.mem_cons_self _ _))
      · exact ih x z (List.mem_cons_of_mem _ h2)

theorem bumpAvail_spec (c : ISTree) :
    (bumpAvail c).info = { c.info with avails := c.info.avails + 1 }
      ∧ (bumpAvail c).children = c.children := by
  cases c; exact ⟨rfl, rfl⟩

/-- Claim C9: `UCBSelectChild` selects, among the children whose move is
in the legal set, one maximizing the UCB1 value
`wins/visits + c·√(ln(avails)/visits)` (evaluated on the pre-update
counters), and its side effect increments `avails` by exactly 1 on
*every* legal child — not only the selected one — leaving non-legal
children and every other field (move, wins, visits, playerJustMoved,
children) unchanged.  Selection and update are deterministic functions
of the children ordering (Python's `max` keeps the earliest maximizer). -/
theorem c9_ucb_select_spec (ex : ℝ) (legal : List Move) (cs : List ISTree)
    (hex : ∃ c ∈ cs, isLegalChild legal c = true) :
    ∃ hj : UCBSelectIdx ex legal cs < cs.length,
      isLegalChild legal (cs.get ⟨UCBSelectIdx ex legal cs, hj⟩) = true
      ∧ (∀ i (hi : i < cs.length), isLegalChild legal (cs.get ⟨i, hi⟩) = true →
          ucbVal ex (cs.get ⟨i, hi⟩).info
            ≤ ucbVal ex (cs.get ⟨UCBSelectIdx ex legal cs, hj⟩).info)
      ∧ (bumpLegalChildren legal cs).length = cs.length
      ∧ (∀ i (hi : i < cs.length) (hi2 : i < (bumpLegalChildren legal cs).length),
          ((bumpLegalChildren legal cs).get ⟨i, hi2⟩).info =
            { (cs.get ⟨i, hi⟩).info with
                avails := (cs.get ⟨i, hi⟩).info.avails
                  + (if isLegalChild legal (cs.get ⟨i, hi⟩) = true then 1 else 0) }
          ∧ ((bumpLegalChildren legal cs).get ⟨i, hi2⟩).children
              = (cs.get ⟨i, hi⟩).children) := by
  classical
  obtain ⟨c, hc, hcl⟩ := hex
  obtain ⟨i0, hci0⟩ := List.mem_iff_get.mp hc
  have hpred : ∀ i (hi : i < cs.length),
      isLegalChild legal (cs.getD i default) = isLegalChild legal (cs.get ⟨i, hi⟩) := by
    intro i hi
    rw [getD_eq_get_of_lt _ _ hi]
  have hcl2 : isLegalChild legal (cs.get i0) = true := by rw [hci0]; exact hcl
  have hmemf : (i0 : Nat) ∈ (List.range cs.length).filter
      (fun i => isLegalChild legal (cs.getD i default)) := by
    refine List.mem_filter.mpr ⟨List.mem_range.mpr i0.isLt, ?_⟩
    rw [hpred i0 i0.isLt]
    exact hcl2
  cases hidx : (List.range cs.length).filter
      (fun i => isLegalChild legal (cs.getD i default)) with
  | nil => rw [hidx] at hmemf; exact absurd hmemf (List.not_mem_nil _)
  | cons j0 js =>
    have hsel : UCBSelectIdx ex legal cs
        = pyMaxBy (fun j => ucbVal ex (cs.getD j default).info) j0 js := by
      simp only [UCBSelectIdx, hidx]
    have hmem : UCBSelectIdx ex legal cs ∈ j0 :: js := by
      rw [hsel]; exact pyMaxBy_mem _ _ _
    rw [← hidx] at hmem
    obtain ⟨hmr, hml⟩ := List.mem_filter.mp hmem
    have hjlt : UCBSelectIdx ex legal cs < cs.length := List.mem_range.mp hmr
    refine ⟨hjlt, ?_, ?_, ?_, ?_⟩
    · rw [← hpred _ hjlt]
      exact hml
    · intro i hi hleg
      have himemf : i ∈ (List.range cs.length).filter
          (fun i => isLegalChild legal (cs.getD i default)) := by
        refine List.mem_filter.mpr ⟨List.mem_range.mpr hi, ?_⟩
        rw [hpred i hi]
        exact hleg
      rw [hidx] at himemf
      have h1 := pyMaxBy_le (fun j => ucbVal ex (cs.getD j default).info) js j0 i himemf
      rw [← hsel] at h1
      have h2 : ucbVal ex (cs.getD i default).info
          ≤ ucbVal ex (cs.getD (UCBSelectIdx ex legal cs) default).info := h1
      rw [getD_eq_get_of_lt _ _ hi, getD_eq_get_of_lt _ _ hjlt] at h2
      exact h2
    · simp [bumpLegalChildren]
    · intro i hi hi2
      have hget : (bumpLegalChildren legal cs).get ⟨i, hi2⟩ =
          (if isLegalChild legal (cs.get ⟨i, hi⟩) = true
           then bumpAvail (cs.get ⟨i, hi⟩) else cs.get ⟨i, hi⟩) := by
        simp [bumpLegalChildren]
      rw [hget]
      by_cases hc2 : isLegalChild legal (cs.get ⟨i, hi⟩) = true
      · rw [if_pos hc2, if_pos hc2]
        exact bumpAvail_spec _
      · rw [if_neg hc2, if_neg hc2]
        exact ⟨by simp, rfl⟩

/-- Witness for `c9_ucb_select_spec`: with only `Income` legal, the
selected index is in range. -/
theorem c9_ucb_select_spec_witness :
    UCBSelectIdx 0.7 [Move.income] c9children < c9children.length :=
  (c9_ucb_select_spec 0.7 [Move.income] c9children
      ⟨c9childA, List.mem_cons_self _ _, by decide⟩).elim (fun hj _ => hj)

/-! ## C10: the UCB1 inputs are always sound -/

theorem subOK_node (i : NodeInfo) (cs : List ISTree) :
    subOK (.node i cs) = ((1 ≤ i.visits && 1 ≤ i.avails) && allSubOK cs) := by
  rw [subOK]

theorem allSubOK_nil : allSubOK [] = true := by rw [allSubOK]

theorem allSubOK_cons (c : ISTree) (cs : List ISTree) :
    allSubOK (c :: cs) = (subOK c && allSubOK cs) := by
  rw [allSubOK]

theorem allSubOK_append (l1 l2 : List ISTree) (h1 : allSubOK l1 = true)
    (h2 : allSubOK l2 = true) : allSubOK (l1 ++ l2) = true := by
  induction l1 with
  | nil => simpa using h2
  | cons c cs ih =>
    rw [allSubOK_cons] at h1
    rw [List.cons_append, allSubOK_cons]
    simp only [Bool.and_eq_true] at h1 ⊢
    exact ⟨h1.1, ih h1.2⟩

theorem allSubOK_mem {cs : List ISTree} {c : ISTree} (h : allSubOK cs = true)
    (hm : c ∈ cs) : subOK c = true := by
  induction cs with
  | nil => exact absurd hm (List.not_mem_nil c)
  | cons x xs ih =>
    rw [allSubOK_cons] at h
    simp only [Bool.and_eq_true] at h
    rcases List.mem_cons.mp hm with h1 | h1
    · rw [h1]; exact h.1
    · exact ih h.2 h1

theorem allSubOK_set {cs : List ISTree} {x : ISTree} (h : allSubOK cs = true)
    (hx : subOK x = true) : ∀ j, allSubOK (cs.set j x) = true := by
  induction cs with
  | nil => intro j; cases j <;> simpa using h
  | cons c cs ih =>
    intro j
    rw [allSubOK_cons] at h
    simp only [Bool.and_eq_true] at h
    cases j with
    | zero =>
      rw [List.set_cons_zero, allSubOK_cons]
      simp only [Bool.and_eq_true]
      exact ⟨hx, h.2⟩
    | succ j =>
      rw [List.set_cons_succ, allSubOK_cons]
      simp only [Bool.and_eq_true]
      exact ⟨h.1, ih h.2 j⟩

theorem subOK_bumpAvail {c : ISTree} (h : subOK c = true) : subOK (bumpAvail c) = true := by
  cases c with
  | node i cs =>
    rw [subOK_node] at h
    simp only [bumpAvail, subOK_node, Bool.and_eq_true, decide_eq_true_eq] at h ⊢
    exact ⟨⟨h.1.1, by omega⟩, h.2⟩

theorem allSubOK_bumpLegal {cs : List ISTree} (legal : List Move)
    (h : allSubOK cs = true) : allSubOK (bumpLegalChildren legal cs) = true := by
  induction cs with
  | nil => simpa [bumpLegalChildren] using h
  | cons c cs ih =>
    rw [allSubOK_cons] at h
    simp only [Bool.and_eq_true] at h
    have hstep : bumpLegalChildren legal (c :: cs)
        = (if isLegalChild legal c then bumpAvail c else c) :: bumpLegalChildren legal cs := rfl
    rw [hstep, allSubOK_cons]
    simp only [Bool.and_eq_true]
    refine ⟨?_, ih h.2⟩
    by_cases hc : isLegalChild legal c = true
    · rw [if_pos hc]; exact subOK_bumpAvail h.1
    · rw [if_neg hc]; exact h.1

theorem updateNode_visits (i : NodeInfo) (s : CoupState) :
    (updateNode i s).visits = i.visits + 1 := rfl

theorem updateNode_avails (i : NodeInfo) (s : CoupState) :
    (updateNode i s).avails = i.avails := rfl

theorem subOK_dest {c : ISTree} (h : subOK c = true) :
    1 ≤ c.info.visits ∧ 1 ≤ c.info.avails ∧ allSubOK c.children = true := by
  cases c with
  | node i cs =>
    rw [subOK_node] at h
    simp only [Bool.and_eq_true, decide_eq_true_eq] at h
    exact ⟨h.1.1, h.1.2, h.2⟩

theorem subOK_mk {c : ISTree} (hv : 1 ≤ c.info.visits) (ha : 1 ≤ c.info.avails)
    (hc : allSubOK c.children = true) : subOK c = true := by
  cases c with
  | node i cs =>
    rw [subOK_node]
    simp only [Bool.and_eq_true, decide_eq_true_eq]
    exact ⟨⟨hv, ha⟩, hc⟩

theorem iterateStep_preserves (ex : ℝ) (or : SearchOracle) (simFuel : Nat) :
    ∀ (n : Nat) (t : ISTree), sizeOf t ≤ n → ∀ (k : Nat) (s : CoupState),
      allSubOK t.children = true →
      allSubOK ((iterateStep ex or simFuel k t s).1).children = true
      ∧ ((iterateStep ex or simFuel k t s).1).info.visits = t.info.visits + 1
      ∧ ((iterateStep ex or simFuel k t s).1).info.avails = t.info.avails := by
  intro n
  induction n with
  | zero =>
    intro t ht
    cases t with
    | node info cs =>
      have h0 : sizeOf (ISTree.node info cs) = 1 + sizeOf info + sizeOf cs :=
        ISTree.node.sizeOf_spec info cs
      omega
  | succ n ih =>
    intro t ht k s hsub
    cases t with
    | node info cs =>
      rw [iterateStep]
      by_cases hguard : GetMoves s ≠ [] ∧ GetUntriedMoves cs (GetMoves s) = []
      · rw [if_pos hguard]
        by_cases hlt : UCBSelectIdx ex (GetMoves s) cs < cs.length
        · rw [dif_pos hlt]
          have hchild : subOK (cs.get ⟨UCBSelectIdx ex (GetMoves s) cs, hlt⟩) = true :=
            allSubOK_mem hsub (cs.get_mem _ _)
          obtain ⟨hv, ha, hc⟩ := subOK_dest hchild
          have hsize : sizeOf (cs.get ⟨UCBSelectIdx ex (GetMoves s) cs, hlt⟩) ≤ n := by
            have h1 : sizeOf (cs.get ⟨UCBSelectIdx ex (GetMoves s) cs, hlt⟩) < sizeOf cs :=
              List.sizeOf_lt_of_mem (cs.get_mem _ _)
            have h0 : sizeOf (ISTree.node info cs) = 1 + sizeOf info + sizeOf cs :=
              ISTree.node.sizeOf_spec info cs
            omega
          have hrec := ih _ hsize (k + 1)
            (match (cs.get ⟨UCBSelectIdx ex (GetMoves s) cs, hlt⟩).info.move with
             | some m => doMoveT (or.shuffle k) m s
             | none => s) hc
          refine ⟨?_, rfl, rfl⟩
          simp only [ISTree.children]
          refine allSubOK_set (allSubOK_bumpLegal _ hsub) ?_ _
          apply subOK_bumpAvail
          exact subOK_mk (by omega) (by omega) hrec.1
        · rw [dif_neg hlt]
          exact ⟨hsub, rfl, rfl⟩
      · rw [if_neg hguard]
        cases hu : GetUntriedMoves cs (GetMoves s) with
        | nil => exact ⟨hsub, rfl, rfl⟩
        | cons u us =>
          refine ⟨?_, rfl, rfl⟩
          simp only [ISTree.children]
          refine allSubOK_append _ _ hsub ?_
          rw [allSubOK_cons, subOK_node]
          simp [allSubOK_nil]

theorem ismctsLoop_preserves (ex : ℝ) (oracles : Nat → SearchOracle) (simFuel : Nat)
    (rootstate : CoupState) :
    ∀ (rem i : Nat) (t : ISTree), allSubOK t.children = true → 1 ≤ t.info.avails →
      allSubOK (ISMCTSLoop ex oracles simFuel rootstate i rem t).children = true
      ∧ 1 ≤ (ISMCTSLoop ex oracles simFuel rootstate i rem t).info.avails := by
  intro rem
  induction rem with
  | zero => intro i t h1 h2; exact ⟨h1, h2⟩
  | succ rem ih =>
    intro i t h1 h2
    simp only [ISMCTSLoop]
    have hstep := iterateStep_preserves ex (oracles i) simFuel (sizeOf t) t (le_refl _) 0
      (CloneAndRandomize rootstate rootstate.playerToMove (oracles i).det) h1
    exact ih (i + 1) _ hstep.1 (by rw [hstep.2.2]; exact h2)

/-- Claim C10: throughout `ISMCTS` the UCB1 formula is evaluated only on
sound inputs.  Every node is created with `avails = 1` (see `rootNode`
and the expansion step of `iterateStep`); after any number of search
iterations every non-root node of the tree has `visits ≥ 1` and
`avails ≥ 1` (a child is added only in the expand step and is visited by
that same iteration's backpropagation, and selection descends only
through fully-expanded nodes), and the root's `avails` is also ≥ 1 — so
`ucb_select`, which only ever evaluates children of nodes of this tree,
never divides by zero and never takes the logarithm of a non-positive
number. -/
theorem c10_ucb_inputs_sound (rootstate : CoupState) (itermax : Nat) (ex : ℝ)
    (oracles : Nat → SearchOracle) (simFuel : Nat) :
    searchInvariant (ISMCTSTree rootstate itermax ex oracles simFuel) = true := by
  have h := ismctsLoop_preserves ex oracles simFuel rootstate itermax 0 rootNode
    allSubOK_nil (by exact le_refl 1)
  simp only [searchInvariant, ISMCTSTree, Bool.and_eq_true, decide_eq_true_eq]
  exact ⟨h.1, h.2⟩

/-! ## C5: search on a terminal state -/

theorem getMoves_nil_of_allOut {s : CoupState} (h : allOpponentsOut s = true) :
    GetMoves s = [] := by
  simp [GetMoves, h]

theorem cloneAndRandomize_allOut (s : CoupState) (o : Nat) (σ : List Card → List Card) :
    allOpponentsOut (CloneAndRandomize s o σ) = allOpponentsOut s := rfl

theorem iterateStep_terminal (ex : ℝ) (or : SearchOracle) (simFuel k : Nat)
    (info : NodeInfo) (s : CoupState) (h : GetMoves s = []) :
    iterateStep ex or simFuel k (.node info []) s = (.node (updateNode info s) [], s) := by
  rw [iterateStep, h]
  simp [GetUntriedMoves]

theorem ismctsLoop_terminal (ex : ℝ) (oracles : Nat → SearchOracle) (simFuel : Nat)
    (rootstate : CoupState) (h : allOpponentsOut rootstate = true) :
    ∀ (rem i : Nat) (info : NodeInfo),
      ∃ inf2, ISMCTSLoop ex oracles simFuel rootstate i rem (.node info []) = .node inf2 [] := by
  intro rem
  induction rem with
  | zero => intro i info; exact ⟨info, rfl⟩
  | succ rem ih =>
    intro i info
    simp only [ISMCTSLoop]
    have hterm :
        GetMoves (CloneAndRandomize rootstate rootstate.playerToMove (oracles i).det) = [] := by
      apply getMoves_nil_of_allOut
      rw [cloneAndRandomize_allOut]
      exact h
    rw [iterateStep_terminal _ _ _ _ _ _ hterm]
    exact ih (i + 1) (updateNode info _)

theorem ismcts_terminal_error (rootstate : CoupState) (itermax : Nat) (ex : ℝ)
    (oracles : Nat → SearchOracle) (simFuel : Nat) (h : allOpponentsOut rootstate = true) :
    (ISMCTSTree rootstate itermax ex oracles simFuel).children = []
    ∧ ISMCTS rootstate itermax ex oracles simFuel = .error () := by
  obtain ⟨inf2, h2⟩ :=
    ismctsLoop_terminal ex oracles simFuel rootstate h itermax 0 ⟨none, 0, 0, 1, none⟩
  have htree : ISMCTSTree rootstate itermax ex oracles simFuel = .node inf2 [] := by
    simp only [ISMCTSTree, rootNode]
    exact h2
  constructor
  · rw [htree]
    rfl
  · rw [ISMCTS, htree]
    rfl

/-- Claim C5 counterexample: on a concrete terminal state with
`iter_max = 1` the embedded `ISMCTS` evaluates to `.error ()` — the
model of the `ValueError` raised by the source's final
`max(rootnode.childNodes, ...)` over zero children — so ISMCTS *raises*
on a terminal state; it does not return a "no move" sentinel (no such
sentinel value exists in the code). -/
theorem c5_terminal_search_raises :
    ISMCTS terminalState 1 (7 / 10 : ℝ) (fun _ => trivOracle) 10 = .error () :=
  (ismcts_terminal_error terminalState 1 (7 / 10 : ℝ) (fun _ => trivOracle) 10 (by decide)).2

/-- Claim C5 amended: for every state that is terminal because every
opponent of the player to move is knocked out (the game-over condition
of `GetMoves`), and every `iter_max`, exploration constant and source of
randomness, `legal_moves()` is empty, the search loop never creates a
child, and `ISMCTS` fails at the final argmax (Python: `ValueError` from
`max` on an empty sequence) instead of returning a sentinel or an
arbitrary move; the caller must check for the terminal state first. -/
theorem c5_terminal_search_errors (rootstate : CoupState) (itermax : Nat) (ex : ℝ)
    (oracles : Nat → SearchOracle) (simFuel : Nat)
    (h : allOpponentsOut rootstate = true) :
    GetMoves rootstate = []
    ∧ (ISMCTSTree rootstate itermax ex oracles simFuel).children = []
    ∧ ISMCTS rootstate itermax ex oracles simFuel = .error () :=
  ⟨getMoves_nil_of_allOut h,
   (ismcts_terminal_error rootstate itermax ex oracles simFuel h).1,
   (ismcts_terminal_error rootstate itermax ex oracles simFuel h).2⟩

/-- Witness for `c5_terminal_search_errors` at a concrete terminal
state. -/
theorem c5_terminal_search_errors_witness :
    GetMoves terminalState = []
    ∧ (ISMCTSTree terminalState 2 (7 / 10 : ℝ) (fun _ => trivOracle) 5).children = []
    ∧ ISMCTS terminalState 2 (7 / 10 : ℝ) (fun _ => trivOracle) 5 = .error () :=
  c5_terminal_search_errors terminalState 2 (7 / 10 : ℝ) (fun _ => trivOracle) 5 (by decide)
